import Mathlib

/-!
Verification of the fuzzer core of `fuzzy-yaak`.

The development shallowly embeds the TypeScript sources:
  - `src-web/components/fuzzer/runFuzzer.ts` (marker substitution,
    header parsing, and the fuzz-run execution loop),
  - `src-web/lib/markers.ts` (the marker toggle operator),
  - `src-web/components/FuzzerLayout.tsx` (the `handleRunFuzzer` entry
    point with its precondition guard and inline run loop).

Text is modelled as `List Char`.  JavaScript string primitives
(`split`, `join`, `trim`, `substring`/`slice`) are embedded as
executable functions on `List Char`.  The injected collaborators
(`sendRequest`, `generateId`, `now`, `nowPerf`, `shouldContinue`) are
modelled as call-indexed streams (deterministic mocks, exactly how the
repository's own test harness drives them), threaded through the loop
by explicit call counters.  A dispatch that throws is modelled by
`Except.error` carrying the textual description of the failure.
-/

namespace FuzzyYaak

/-- JavaScript whitespace predicate used by `String.prototype.trim`
(restricted to the ASCII whitespace characters that can occur here). -/
def isJsWhitespace (c : Char) : Bool :=
  c == ' ' || c == '\t' || c == '\n' || c == '\r' || c == '\x0b' || c == '\x0c'

/-- Embedding of `s.trim()`: strip leading and trailing whitespace. -/
def jsTrim (s : List Char) : List Char :=
  ((s.dropWhile isJsWhitespace).reverse.dropWhile isJsWhitespace).reverse

/-- Embedding of `s.split(sep)` for a single-character separator:
splits at every occurrence of `c`; the empty string splits to `[[]]`. -/
def jsSplit (c : Char) : List Char → List (List Char)
  | [] => [[]]
  | x :: xs =>
    let r := jsSplit c xs
    if x == c then [] :: r
    else
      match r with
      | [] => [[x]]
      | y :: ys => (x :: y) :: ys

/-- Embedding of `parts.join(sep)` for a single-character separator. -/
def jsJoin (c : Char) : List (List Char) → List Char
  | [] => []
  | [x] => x
  | x :: y :: ys => x ++ c :: jsJoin c (y :: ys)

/-- The three markable request fields (`'url' | 'body' | 'headers'`). -/
inductive MField where
  | url
  | body
  | headers
deriving DecidableEq, BEq, Repr

/-- `FuzzerMarker` from `runFuzzer.ts`: a frozen offset span inside one
field.  The source field `end` is written `«end»`. -/
structure FuzzerMarker where
  id : List Char
  field : MField
  start : Nat
  «end» : Nat
  originalText : List Char
deriving DecidableEq, Repr

/-- A structured header record as produced by `parseHeaders`. -/
structure HttpHeader where
  name : List Char
  value : List Char
  enabled : Bool
  id : List Char
deriving DecidableEq, Repr

/-- The body part of a request (`body?.text`). -/
structure HttpBody where
  text : Option (List Char)
deriving DecidableEq, Repr

/-- The slice of an `HttpRequest` the engine reads and writes: `url`,
`body.text` and `headers`; all other template fields are passed through
unchanged and play no role in any claim. -/
structure HttpRequest where
  url : Option (List Char)
  body : Option HttpBody
  headers : List HttpHeader
deriving DecidableEq, Repr

/-- `Pick<HttpResponse, 'status' | 'contentLength' | 'error'>`. -/
structure SendResult where
  status : Int
  contentLength : Option Int
  error : Option (List Char)
deriving DecidableEq, Repr

/-- `FuzzerResult` from `runFuzzer.ts` — exactly the fields the source
interface declares. -/
structure FuzzerResult where
  id : List Char
  word : List Char
  status : Int
  elapsed : Int
  contentLength : Int
  error : Option (List Char)
  timestamp : Int
deriving DecidableEq, Repr

/-- Insert a marker into a list already sorted by `start` descending,
keeping the insertion stable (equal starts keep original order). -/
def insertDesc (m : FuzzerMarker) : List FuzzerMarker → List FuzzerMarker
  | [] => [m]
  | y :: ys => if m.start < y.start then y :: insertDesc m ys else m :: y :: ys

/-- Embedding of `[...markers].sort((a, b) => b.start - a.start)`: a
stable sort by `start` descending (insertion sort). -/
def sortByStartDesc : List FuzzerMarker → List FuzzerMarker
  | [] => []
  | x :: xs => insertDesc x (sortByStartDesc xs)

/-- The `for (const marker of sortedMarkers)` body of `applyMarkers`:
`nextText = nextText.substring(0, marker.start) + word + nextText.substring(marker.end)`,
folded over an already-sorted marker list. -/
def applySorted (word : List Char) : List FuzzerMarker → List Char → List Char
  | [], t => t
  | m :: ms, t => applySorted word ms (t.take m.start ++ word ++ t.drop m.«end»)

/-- `applyMarkers` from `runFuzzer.ts`: sort the markers by `start`
descending, then replace each span `[start, end)` with `word`. -/
def applyMarkers (text : List Char) (markers : List FuzzerMarker) (word : List Char) :
    List Char :=
  applySorted word (sortByStartDesc markers) text

/-- Per-line step of `parseHeaders`: split on `':'`; lines with no
colon, or whose trimmed name is empty, are dropped (`null`); otherwise
the trimmed name and trimmed joined remainder are kept, with a fresh id
drawn from the id stream at the current call count. -/
def parseHeadersAux (gid : Nat → List Char) : List (List Char) → Nat → List HttpHeader × Nat
  | [], n => ([], n)
  | line :: rest, n =>
    let parts := jsSplit ':' line
    if parts.length < 2 then parseHeadersAux gid rest n
    else
      let name := jsTrim (parts.headD [])
      let value := jsTrim (jsJoin ':' (parts.drop 1))
      if name.isEmpty then parseHeadersAux gid rest n
      else
        let out := parseHeadersAux gid rest (n + 1)
        (⟨name, value, true, gid n⟩ :: out.1, out.2)

/-- `parseHeaders` from `runFuzzer.ts`: split the raw text on newlines
and process each line; `n` is the current call count of the injected
`generateId`; returns the headers and the updated call count. -/
def parseHeaders (headersText : List Char) (gid : Nat → List Char) (n : Nat) :
    List HttpHeader × Nat :=
  parseHeadersAux gid (jsSplit '\n' headersText) n

/-- The injected collaborators of `runFuzzerRequests`, modelled as
call-indexed streams: argument `n` is the number of earlier calls to
that collaborator.  `sendRequest` returns `Except.error e` to model a
rejected dispatch whose textual description (`String(e)`) is `e`. -/
structure FuzzerEnv where
  sendRequest : Nat → HttpRequest → Except (List Char) SendResult
  generateId : Nat → List Char
  now : Nat → Int
  nowPerf : Nat → Int
  shouldContinue : Nat → Bool

/-- Call counters for the five collaborators, threaded through the run
loop so every collaborator call is addressed by its call index. -/
structure Counters where
  idC : Nat
  nowC : Nat
  perfC : Nat
  contC : Nat
  sendC : Nat
deriving DecidableEq, Repr

/-- One iteration of the `for (const word of words)` loop of
`runFuzzerRequests` (after the `shouldContinue` check): build the
concrete request by substituting every field's markers, parse the
substituted raw header text, dispatch, and produce the appended
`FuzzerResult` (success and thrown-failure branches of the `try`),
the dispatched request, and the updated call counters.  On a throw,
`nowPerf` has been called once (for `start`) and the second call never
happens. -/
def runIter (env : FuzzerEnv) (draft : HttpRequest)
    (urlM headerM bodyM : List FuzzerMarker) (rawHeaders : List Char)
    (word : List Char) (st : Counters) : FuzzerResult × HttpRequest × Counters :=
  let url := applyMarkers (draft.url.getD []) urlM word
  let bodyText := applyMarkers ((draft.body.bind HttpBody.text).getD []) bodyM word
  let headersText := applyMarkers rawHeaders headerM word
  let ph := parseHeaders headersText env.generateId st.idC
  let request : HttpRequest := ⟨some url, some ⟨some bodyText⟩, ph.1⟩
  match env.sendRequest st.sendC request with
  | .ok r =>
    let start := env.nowPerf st.perfC
    let elapsed := env.nowPerf (st.perfC + 1) - start
    (⟨env.generateId ph.2, word, r.status, elapsed, r.contentLength.getD 0,
        r.error, env.now st.nowC⟩,
      request,
      ⟨ph.2 + 1, st.nowC + 1, st.perfC + 2, st.contC, st.sendC + 1⟩)
  | .error e =>
    (⟨env.generateId ph.2, word, 0, 0, 0, some e, env.now st.nowC⟩,
      request,
      ⟨ph.2 + 1, st.nowC + 1, st.perfC + 1, st.contC, st.sendC + 1⟩)

/-- Advance the `shouldContinue` call counter by one (the sample taken
at the top of each loop iteration). -/
def bump (st : Counters) : Counters :=
  ⟨st.idC, st.nowC, st.perfC, st.contC + 1, st.sendC⟩

/-- The run loop of `runFuzzerRequests`: for each word, first sample
`shouldContinue` (breaking out of the loop when it returns false), then
run one iteration; collects the appended results and the requests
handed to `sendRequest`, in order. -/
def runWords (env : FuzzerEnv) (draft : HttpRequest)
    (urlM headerM bodyM : List FuzzerMarker) (rawHeaders : List Char) :
    List (List Char) → Counters → List FuzzerResult × List HttpRequest × Counters
  | [], st => ([], [], st)
  | word :: rest, st =>
    let cont := env.shouldContinue st.contC
    if cont then
      let step := runIter env draft urlM headerM bodyM rawHeaders word (bump st)
      let out := runWords env draft urlM headerM bodyM rawHeaders rest step.2.2
      (step.1 :: out.1, step.2.1 :: out.2.1, out.2.2)
    else ([], [], bump st)

/-- `runFuzzerRequests` from `runFuzzer.ts`: partition the markers by
field, then run the word loop from fresh call counters.  Returns the
ordered result log, the ordered list of dispatched requests, and the
final counters. -/
def runFuzzerRequests (env : FuzzerEnv) (draft : HttpRequest)
    (markers : List FuzzerMarker) (rawHeaders : List Char) (words : List (List Char)) :
    List FuzzerResult × List HttpRequest × Counters :=
  runWords env draft
    (markers.filter (fun m => m.field == MField.url))
    (markers.filter (fun m => m.field == MField.headers))
    (markers.filter (fun m => m.field == MField.body))
    rawHeaders words ⟨0, 0, 0, 0, 0⟩

/-- `response.error || undefined` from the `FuzzerLayout` inline loop:
a present-but-empty error string is mapped to absence (`||` is falsy on
the empty string, where `runFuzzer.ts` uses `??`). -/
def jsOrUndefined : Option (List Char) → Option (List Char)
  | none => none
  | some e => if e.isEmpty then none else some e

/-- One iteration of the inline run loop of `handleRunFuzzer` in
`FuzzerLayout.tsx`: identical request construction (the per-field
marker lists arrive already sorted descending), dispatch through
`sendEphemeralRequest`, with `contentLength: response.contentLength || 0`
and `error: response.error || undefined`. -/
def layoutIter (env : FuzzerEnv) (draft : HttpRequest)
    (sortedUrl sortedHeader sortedBody : List FuzzerMarker) (rawHeaders : List Char)
    (word : List Char) (st : Counters) : FuzzerResult × HttpRequest × Counters :=
  let urlText := applySorted word sortedUrl (draft.url.getD [])
  let bodyText := applySorted word sortedBody ((draft.body.bind HttpBody.text).getD [])
  let headersText := applySorted word sortedHeader rawHeaders
  let ph := parseHeaders headersText env.generateId st.idC
  let request : HttpRequest := ⟨some urlText, some ⟨some bodyText⟩, ph.1⟩
  match env.sendRequest st.sendC request with
  | .ok r =>
    let start := env.nowPerf st.perfC
    let elapsed := env.nowPerf (st.perfC + 1) - start
    (⟨env.generateId ph.2, word, r.status, elapsed, r.contentLength.getD 0,
        jsOrUndefined r.error, env.now st.nowC⟩,
      request,
      ⟨ph.2 + 1, st.nowC + 1, st.perfC + 2, st.contC, st.sendC + 1⟩)
  | .error e =>
    (⟨env.generateId ph.2, word, 0, 0, 0, some e, env.now st.nowC⟩,
      request,
      ⟨ph.2 + 1, st.nowC + 1, st.perfC + 1, st.contC, st.sendC + 1⟩)

/-- The inline run loop of `handleRunFuzzer`: the cancellation check
`if (!isRunning) break` reads the `isRunning` value captured by the
closure at render time, so it is one constant boolean for the whole
loop, not a freshly sampled predicate. -/
def layoutRunWords (env : FuzzerEnv) (draft : HttpRequest)
    (sortedUrl sortedHeader sortedBody : List FuzzerMarker) (rawHeaders : List Char)
    (isRunning : Bool) :
    List (List Char) → Counters → List FuzzerResult × List HttpRequest × Counters
  | [], st => ([], [], st)
  | word :: rest, st =>
    if isRunning then
      let step := layoutIter env draft sortedUrl sortedHeader sortedBody rawHeaders word st
      let out := layoutRunWords env draft sortedUrl sortedHeader sortedBody rawHeaders
        isRunning rest step.2.2
      (step.1 :: out.1, step.2.1 :: out.2.1, out.2.2)
    else ([], [], st)

/-- `handleRunFuzzer` from `FuzzerLayout.tsx`.  The guard
`if (!draftRequest || markers.length === 0 || !wordlist.trim()) return;`
is modelled by returning `none`: the run never starts, synchronously.
Otherwise the word list is split on newlines, trimmed and filtered of
empty lines, the markers are partitioned by field and sorted by `start`
descending once, and the inline loop runs; `some` carries the produced
result log and the dispatched requests. -/
def handleRunFuzzer (env : FuzzerEnv) (draftRequest : Option HttpRequest)
    (markers : List FuzzerMarker) (wordlist : List Char) (rawHeaders : List Char)
    (isRunning : Bool) : Option (List FuzzerResult × List HttpRequest) :=
  match draftRequest with
  | none => none
  | some draft =>
    if markers.length = 0 then none
    else if (jsTrim wordlist).isEmpty then none
    else
      let words := ((jsSplit '\n' wordlist).map jsTrim).filter (fun w => !w.isEmpty)
      let out := layoutRunWords env draft
        (sortByStartDesc (markers.filter (fun m => m.field == MField.url)))
        (sortByStartDesc (markers.filter (fun m => m.field == MField.headers)))
        (sortByStartDesc (markers.filter (fun m => m.field == MField.body)))
        rawHeaders isRunning words ⟨0, 0, 0, 0, 0⟩
      some (out.1, out.2.1)

/-- Result log of a (possibly not started) `handleRunFuzzer` run. -/
def runResults : Option (List FuzzerResult × List HttpRequest) → List FuzzerResult
  | none => []
  | some out => out.1

/-- Requests dispatched by a (possibly not started) `handleRunFuzzer`
run. -/
def runDispatches : Option (List FuzzerResult × List HttpRequest) → List HttpRequest
  | none => []
  | some out => out.2

/-- The new buffer text and new selection produced by one invocation of
the toggle operator (`view.dispatch` replaces the whole buffer and sets
`anchor`/`head`). -/
structure ToggleResult where
  text : List Char
  anchor : Nat
  head : Nat
deriving DecidableEq, Repr

/-- The guard of case 1 of `toggleMarkersAroundSelection`
(`markers.ts` line 43): the selection is flanked by the glyph,
`from > 0 && to < docText.length && docText[from-1] === marker && docText[to] === marker`. -/
def flankCond (doc : List Char) (selFrom selTo : Nat) (m : Char) : Bool :=
  decide (0 < selFrom) && decide (selTo < doc.length) &&
    doc[selFrom - 1]? == some m && doc[selTo]? == some m

/-- The guard of case 2 of `toggleMarkersAroundSelection`
(`markers.ts` line 57): the selected text itself begins and ends with
the glyph,
`selected.length >= 2 && selected[0] === marker && selected[selected.length-1] === marker`. -/
def wrapCond (selected : List Char) (m : Char) : Bool :=
  decide (2 ≤ selected.length) && selected.head? == some m && selected.getLast? == some m

/-- `toggleMarkersAroundSelection` from `markers.ts`, as a pure
function of the buffer text, the selection `[selFrom, selTo)` and the
delimiter glyph `m`.  JS `slice` is embedded with `take`/`drop`
(`slice(0, -1)` is `dropLast`, `slice(1)` is `drop 1`). -/
def toggleMarkersAroundSelection (doc : List Char) (selFrom selTo : Nat) (m : Char) :
    ToggleResult :=
  if selFrom = selTo then
    let before := doc.take selFrom
    let after := doc.drop selFrom
    let nextPos := before.length + 1
    ⟨before ++ [m, m] ++ after, nextPos, nextPos⟩
  else
    let before := doc.take selFrom
    let selected := (doc.take selTo).drop selFrom
    let after := doc.drop selTo
    if flankCond doc selFrom selTo m then
      let newFrom := selFrom - 1
      ⟨before.dropLast ++ selected ++ after.drop 1, newFrom, newFrom + selected.length⟩
    else if wrapCond selected m then
      let inner := (selected.drop 1).dropLast
      ⟨before ++ inner ++ after, selFrom, selFrom + inner.length⟩
    else
      ⟨before ++ m :: (selected ++ [m]) ++ after, selFrom + 1,
        selFrom + 1 + selected.length⟩

/-- Insert a marker into a list sorted by `start` ascending (stable).
Spec-side definition: the specification's negative test (§8) speaks of
applying the same two replacements in ascending-start order; the
source itself only ever sorts descending. -/
def insertAsc (m : FuzzerMarker) : List FuzzerMarker → List FuzzerMarker
  | [] => [m]
  | y :: ys => if y.start < m.start then y :: insertAsc m ys else m :: y :: ys

/-- Stable sort by `start` ascending (spec-side, for the negative half
of the descending-order substitution law). -/
def sortByStartAsc : List FuzzerMarker → List FuzzerMarker
  | [] => []
  | x :: xs => insertAsc x (sortByStartAsc xs)

/-- Spec-side variant of `applyMarkers` that applies the replacements
in ascending-start order; the descending-order law's negative test
shows this variant corrupts later offsets. -/
def applyMarkersAscending (text : List Char) (markers : List FuzzerMarker)
    (word : List Char) : List Char :=
  applySorted word (sortByStartAsc markers) text

/-- The name/value/enabled content of a header record, forgetting the
generated id. -/
def headerNV (h : HttpHeader) : List Char × List Char × Bool :=
  (h.name, h.value, h.enabled)

/-- Spec-side per-line description of header decoding (claim C5 and
spec §4.3): drop the line when it has no colon or the trimmed part
before the first colon is empty; otherwise keep the trimmed name and
the trimmed remainder after the first colon. -/
def specHeaderLine (line : List Char) : Option (List Char × List Char) :=
  if !line.contains ':' then none
  else
    let name := jsTrim (line.takeWhile (fun c => !(c == ':')))
    if name.isEmpty then none
    else some (name, jsTrim ((line.dropWhile (fun c => !(c == ':'))).drop 1))

lemma jsSplit_ne_nil (c : Char) (s : List Char) : jsSplit c s ≠ [] := by
  induction s with
  | nil => simp [jsSplit]
  | cons x xs ih =>
    simp only [jsSplit]
    cases hxc : x == c with
    | true => simp
    | false =>
      simp only [Bool.false_eq_true, if_false]
      rcases hr : jsSplit c xs with _ | ⟨y, ys⟩ <;> simp

lemma jsJoin_jsSplit (c : Char) (s : List Char) : jsJoin c (jsSplit c s) = s := by
  induction s with
  | nil => rfl
  | cons x xs ih =>
    simp only [jsSplit]
    cases hxc : x == c with
    | true =>
      rcases hr : jsSplit c xs with _ | ⟨y, ys⟩
      · exact absurd hr (jsSplit_ne_nil c xs)
      · rw [hr] at ih
        simp only [if_true, jsJoin, ih]
        have : x = c := by simpa using hxc
        simp [this, ih]
    | false =>
      rcases hr : jsSplit c xs with _ | ⟨y, ys⟩
      · exact absurd hr (jsSplit_ne_nil c xs)
      · rw [hr] at ih
        simp only [Bool.false_eq_true, if_false]
        cases ys with
        | nil => simpa [jsJoin] using ih
        | cons z zs => simpa [jsJoin] using ih

lemma jsSplit_headD (c : Char) (s : List Char) :
    (jsSplit c s).headD [] = s.takeWhile (fun x => !(x == c)) := by
  induction s with
  | nil => rfl
  | cons x xs ih =>
    simp only [jsSplit]
    cases hxc : x == c with
    | true => simp [List.takeWhile_cons, hxc]
    | false =>
      rcases hr : jsSplit c xs with _ | ⟨y, ys⟩
      · exact absurd hr (jsSplit_ne_nil c xs)
      · rw [hr] at ih
        simp only [Bool.false_eq_true, if_false, List.headD_cons]
        simp only [List.headD_cons] at ih
        simp [List.takeWhile_cons, hxc, ih]

lemma jsSplit_length_lt_two (c : Char) (s : List Char) :
    (jsSplit c s).length < 2 ↔ c ∉ s := by
  induction s with
  | nil => simp [jsSplit]
  | cons x xs ih =>
    simp only [jsSplit]
    cases hxc : x == c with
    | true =>
      have hx : x = c := by simpa using hxc
      have hne := jsSplit_ne_nil c xs
      rcases hr : jsSplit c xs with _ | ⟨y, ys⟩
      · exact absurd hr hne
      · simp [hx]
    | false =>
      have hx : ¬ x = c := by simpa using hxc
      rcases hr : jsSplit c xs with _ | ⟨y, ys⟩
      · exact absurd hr (jsSplit_ne_nil c xs)
      · rw [hr] at ih
        simp only [Bool.false_eq_true, if_false]
        simp only [List.length_cons] at ih ⊢
        rw [List.mem_cons]
        constructor
        · intro h hmem
          rcases hmem with h' | h'
          · exact hx h'.symm
          · exact (ih.mp h) h'
        · intro h
          exact ih.mpr (fun hmem => h (Or.inr hmem))

lemma jsJoin_jsSplit_drop_one (c : Char) (s : List Char) (hmem : c ∈ s) :
    jsJoin c ((jsSplit c s).drop 1) = (s.dropWhile (fun x => !(x == c))).drop 1 := by
  induction s with
  | nil => cases hmem
  | cons x xs ih =>
    simp only [jsSplit]
    cases hxc : x == c with
    | true =>
      have hx : x = c := by simpa using hxc
      simp [List.dropWhile_cons, hxc, jsJoin_jsSplit]
    | false =>
      have hx : ¬ x = c := by simpa using hxc
      have hmem' : c ∈ xs := by
        rcases List.mem_cons.mp hmem with h' | h'
        · exact absurd h'.symm hx
        · exact h'
      rcases hr : jsSplit c xs with _ | ⟨y, ys⟩
      · exact absurd hr (jsSplit_ne_nil c xs)
      · have := ih hmem'
        rw [hr] at this
        simp only [Bool.false_eq_true, if_false, List.drop_succ_cons, List.drop_zero] at this ⊢
        simp [List.dropWhile_cons, hxc, this]

lemma parseHeadersAux_nv (gid : Nat → List Char) (lines : List (List Char)) :
    ∀ n, ((parseHeadersAux gid lines n).1).map headerNV
      = (lines.filterMap specHeaderLine).map (fun p => (p.1, p.2, true)) := by
  induction lines with
  | nil => intro n; rfl
  | cons line rest ih =>
    intro n
    simp only [parseHeadersAux, List.filterMap_cons]
    by_cases hlen : (jsSplit ':' line).length < 2
    · have hnc : ¬ ':' ∈ line := (jsSplit_length_lt_two ':' line).mp hlen
      have hspec : specHeaderLine line = none := by
        simp [specHeaderLine, hnc]
      simp [hlen, hspec, ih n]
    · have hmem : ':' ∈ line := by
        by_contra hnc
        exact hlen ((jsSplit_length_lt_two ':' line).mpr hnc)
      have hname : jsTrim ((jsSplit ':' line).head?.getD [])
          = jsTrim (line.takeWhile (fun x => !(x == ':'))) := by
        have := jsSplit_headD ':' line
        simpa using congrArg jsTrim this
      have hvalue : jsTrim (jsJoin ':' ((jsSplit ':' line).tail))
          = jsTrim ((line.dropWhile (fun x => !(x == ':'))).tail) := by
        have := jsJoin_jsSplit_drop_one ':' line hmem
        simpa [List.drop_one] using congrArg jsTrim this
      by_cases hempty : jsTrim (line.takeWhile (fun x => !(x == ':'))) = []
      · have hspec : specHeaderLine line = none := by
          simp [specHeaderLine, hmem, hempty]
        simp [hlen, hname, hempty, hspec, ih n]
      · have hspec : specHeaderLine line
            = some (jsTrim (line.takeWhile (fun x => !(x == ':'))),
                jsTrim ((line.dropWhile (fun x => !(x == ':'))).tail)) := by
          simp [specHeaderLine, hmem, hempty, List.drop_one]
        simp [hlen, hname, hvalue, hempty, hspec, ih (n + 1), headerNV]

/-- C5: `parseHeaders` splits on newlines; a line with no colon, or
whose part before the first colon trims to empty, is silently dropped;
otherwise it yields a record whose name is the trimmed part before the
first colon and whose value is the trimmed remainder after the first
colon with interior colons preserved, with `enabled = true`, in line
order.  In particular the line `Cookie: a=1; b=2` yields the value
`a=1; b=2`. -/
theorem parseHeaders_line_spec (text : List Char) (gid : Nat → List Char) (n : Nat) :
    ((parseHeaders text gid n).1).map headerNV
      = ((jsSplit '\n' text).filterMap specHeaderLine).map (fun p => (p.1, p.2, true))
    ∧ ((parseHeaders ("Cookie: a=1; b=2".data) gid n).1).map headerNV
      = [("Cookie".data, "a=1; b=2".data, true)] := by
  constructor
  · exact parseHeadersAux_nv gid (jsSplit '\n' text) n
  · rw [parseHeaders, parseHeadersAux_nv gid (jsSplit '\n' ("Cookie: a=1; b=2".data)) n]
    decide

lemma applyMarkers_nil (text word : List Char) : applyMarkers text [] word = text := rfl

lemma parseHeaders_nv_const (raw : List Char) (gid : Nat → List Char) (n : Nat) :
    ((parseHeaders raw gid n).1).map headerNV = ((parseHeaders raw gid 0).1).map headerNV := by
  rw [parseHeaders, parseHeaders, parseHeadersAux_nv, parseHeadersAux_nv]

lemma runIter_req (env : FuzzerEnv) (draft : HttpRequest)
    (u hm b : List FuzzerMarker) (raw word : List Char) (st : Counters) :
    (runIter env draft u hm b raw word st).2.1
      = ⟨some (applyMarkers (draft.url.getD []) u word),
          some ⟨some (applyMarkers ((draft.body.bind HttpBody.text).getD []) b word)⟩,
          (parseHeaders (applyMarkers raw hm word) env.generateId st.idC).1⟩ := by
  simp only [runIter]
  split <;> rfl

lemma runWords_req_shape (env : FuzzerEnv) (draft : HttpRequest)
    (u hm b : List FuzzerMarker) (raw : List Char) :
    ∀ (ws : List (List Char)) (st : Counters) (r : HttpRequest),
      r ∈ (runWords env draft u hm b raw ws st).2.1 →
        ∃ w st', r = (runIter env draft u hm b raw w st').2.1 := by
  intro ws
  induction ws with
  | nil => intro st r h; simp [runWords] at h
  | cons w rest ih =>
    intro st r h
    simp only [runWords] at h
    by_cases hc : env.shouldContinue st.contC
    · rw [if_pos hc] at h
      rcases List.mem_cons.mp h with h' | h'
      · exact ⟨w, bump st, h'⟩
      · exact ih _ r h'
    · rw [if_neg hc] at h
      simp at h

/-- C10: `applyMarkers` with an empty marker list is the identity on
the text, so in each engine iteration a field with no markers is sent
verbatim: the dispatched request's url (resp. body text) equals the
template's url (resp. body text), and its headers are exactly the
parse of the unmodified raw header text (up to the generated ids). -/
theorem applyMarkers_empty_identity :
    (∀ (text word : List Char), applyMarkers text [] word = text)
    ∧ ∀ (env : FuzzerEnv) (draft : HttpRequest) (markers : List FuzzerMarker)
        (rawHeaders : List Char) (words : List (List Char)) (r : HttpRequest),
        r ∈ (runFuzzerRequests env draft markers rawHeaders words).2.1 →
          ((markers.filter (fun m => m.field == MField.url) = [] →
              r.url = some (draft.url.getD []))
          ∧ (markers.filter (fun m => m.field == MField.body) = [] →
              r.body = some ⟨some ((draft.body.bind HttpBody.text).getD [])⟩)
          ∧ (markers.filter (fun m => m.field == MField.headers) = [] →
              r.headers.map headerNV
                = ((parseHeaders rawHeaders env.generateId 0).1).map headerNV)) := by
  refine ⟨fun text word => rfl, ?_⟩
  intro env draft markers rawHeaders words r hmem
  rcases runWords_req_shape env draft _ _ _ rawHeaders words ⟨0, 0, 0, 0, 0⟩ r hmem
    with ⟨w, st', hr⟩
  rw [hr, runIter_req]
  refine ⟨?_, ?_, ?_⟩
  · intro hu; rw [hu, applyMarkers_nil]
  · intro hb; rw [hb, applyMarkers_nil]
  · intro hh; rw [hh, applyMarkers_nil]; exact parseHeaders_nv_const rawHeaders env.generateId st'.idC

/-- A concrete sample environment (deterministic mock collaborators)
used to instantiate hypothesis-bearing theorems at concrete inputs. -/
def sampleEnv : FuzzerEnv :=
  ⟨fun n _ => .ok ⟨200 + Int.ofNat n, some 7, none⟩,
    fun n => [Char.ofNat (48 + n % 10)],
    fun _ => 1700000000,
    fun n => Int.ofNat (10 * n),
    fun _ => true⟩

/-- The concrete request `sampleEnv` dispatches for the word `w` on a
marker-free template with url `u` and raw header line `A: b`. -/
def sampleReq : HttpRequest :=
  ⟨some "u".data, some ⟨some []⟩, [⟨"A".data, "b".data, true, ['0']⟩]⟩

theorem applyMarkers_empty_identity_witness :
    sampleReq ∈ (runFuzzerRequests sampleEnv ⟨some "u".data, none, []⟩ []
        "A: b".data ["w".data]).2.1
    ∧ sampleReq.url = some "u".data
    ∧ sampleReq.body = some ⟨some []⟩
    ∧ sampleReq.headers.map headerNV
        = ((parseHeaders "A: b".data sampleEnv.generateId 0).1).map headerNV := by
  have hmem : sampleReq ∈ (runFuzzerRequests sampleEnv ⟨some "u".data, none, []⟩ []
      "A: b".data ["w".data]).2.1 := by decide
  have h := (applyMarkers_empty_identity.2 sampleEnv ⟨some "u".data, none, []⟩ []
    "A: b".data ["w".data] sampleReq hmem)
  exact ⟨hmem, h.1 rfl, h.2.1 rfl, h.2.2 rfl⟩

/-- C6: single-marker substitution is content-exact: for a marker with
`start ≤ end ≤ text.length`, `applyMarkers` returns
`text[0:start] ++ word ++ text[end:]`; every character outside the
marked span is untouched. -/
theorem applyMarkers_single_content_exact (text word : List Char) (m : FuzzerMarker)
    (h1 : m.start ≤ m.«end») (h2 : m.«end» ≤ text.length) :
    applyMarkers text [m] word = text.take m.start ++ word ++ text.drop m.«end» := rfl

theorem applyMarkers_single_content_exact_witness :
    (20 : Nat) ≤ 24 ∧ (24 : Nat) ≤ "https://example.com/FUZZ".data.length ∧
    applyMarkers "https://example.com/FUZZ".data
        [⟨"u1".data, MField.url, 20, 24, "FUZZ".data⟩] "alpha".data
      = "https://example.com/alpha".data := by
  refine ⟨by decide, by decide, ?_⟩
  rw [applyMarkers_single_content_exact "https://example.com/FUZZ".data "alpha".data
    ⟨"u1".data, MField.url, 20, 24, "FUZZ".data⟩ (by decide) (by decide)]
  decide

/-- C2: for two same-field markers with disjoint spans (the smaller
start strictly first), `applyMarkers` — which substitutes in
descending-start order — replaces both original spans with the word
exactly, leaving the text addressed by the smaller-start marker
unshifted even when the word length differs from a span length; the
ascending-start order does not have this property for some such input
(`AB__CD` with spans `[0,2)` and `[4,6)` and word `xyz`). -/
theorem applyMarkers_desc_order_law (text word : List Char) (m1 m2 : FuzzerMarker)
    (hfield : m1.field = m2.field)
    (h11 : m1.start ≤ m1.«end») (h1lt : m1.start < m2.start) (h12 : m1.«end» ≤ m2.start)
    (h22 : m2.start ≤ m2.«end») (hlen : m2.«end» ≤ text.length) :
    applyMarkers text [m1, m2] word
      = text.take m1.start ++ word ++ (text.drop m1.«end»).take (m2.start - m1.«end»)
          ++ word ++ text.drop m2.«end»
    ∧ applyMarkersAscending "AB__CD".data
          [⟨"a".data, MField.url, 0, 2, "AB".data⟩, ⟨"b".data, MField.url, 4, 6, "CD".data⟩]
          "xyz".data
        ≠ "AB__CD".data.take 0 ++ "xyz".data ++ ("AB__CD".data.drop 2).take (4 - 2)
            ++ "xyz".data ++ "AB__CD".data.drop 6 := by
  constructor
  · have hsort : sortByStartDesc [m1, m2] = [m2, m1] := by
      simp [sortByStartDesc, insertDesc, h1lt]
    rw [applyMarkers, hsort]
    simp only [applySorted]
    have htlen : (text.take m2.start).length = m2.start := by
      simp [List.length_take]
      omega
    have e1 : ((text.take m2.start ++ word) ++ text.drop m2.«end»).take m1.start
        = text.take m1.start := by
      rw [List.take_append_eq_append_take]
      have hl : m1.start - (text.take m2.start ++ word).length = 0 := by
        simp [List.length_append, htlen]
        omega
      rw [hl, List.take_zero, List.append_nil]
      rw [List.take_append_eq_append_take]
      have hl2 : m1.start - (text.take m2.start).length = 0 := by
        rw [htlen]; omega
      rw [hl2, List.take_zero, List.append_nil, List.take_take]
      congr 1
      omega
    have e2 : ((text.take m2.start ++ word) ++ text.drop m2.«end»).drop m1.«end»
        = (text.drop m1.«end»).take (m2.start - m1.«end») ++ word ++ text.drop m2.«end» := by
      rw [List.drop_append_eq_append_drop]
      have hl : m1.«end» - (text.take m2.start ++ word).length = 0 := by
        simp [List.length_append, htlen]
        omega
      rw [hl, List.drop_zero]
      rw [List.drop_append_eq_append_drop]
      have hl2 : m1.«end» - (text.take m2.start).length = 0 := by
        rw [htlen]; omega
      rw [hl2, List.drop_zero, List.drop_take]
    rw [e1, e2]
    simp [List.append_assoc]
  · decide

theorem applyMarkers_desc_order_law_witness :
    MField.url = MField.url ∧ (0 : Nat) ≤ 2 ∧ (0 : Nat) < 4 ∧ (2 : Nat) ≤ 4
    ∧ (4 : Nat) ≤ 6 ∧ (6 : Nat) ≤ "AB__CD".data.length
    ∧ applyMarkers "AB__CD".data
        [⟨"a".data, MField.url, 0, 2, "AB".data⟩, ⟨"b".data, MField.url, 4, 6, "CD".data⟩]
        "xyz".data
      = "xyz__xyz".data := by
  refine ⟨rfl, by decide, by decide, by decide, by decide, by decide, ?_⟩
  have h := (applyMarkers_desc_order_law "AB__CD".data "xyz".data
    ⟨"a".data, MField.url, 0, 2, "AB".data⟩ ⟨"b".data, MField.url, 4, 6, "CD".data⟩
    rfl (by decide) (by decide) (by decide) (by decide) (by decide)).1
  rw [h]
  decide

lemma toggle_flank_branch (doc : List Char) (selFrom selTo : Nat) (m : Char)
    (hne : selFrom ≠ selTo) (hf : flankCond doc selFrom selTo m = true) :
    toggleMarkersAroundSelection doc selFrom selTo m
      = ⟨(doc.take selFrom).dropLast ++ ((doc.take selTo).drop selFrom)
            ++ (doc.drop selTo).drop 1,
          selFrom - 1, selFrom - 1 + ((doc.take selTo).drop selFrom).length⟩ := by
  simp [toggleMarkersAroundSelection, hne, hf]

lemma toggle_default_branch (doc : List Char) (selFrom selTo : Nat) (m : Char)
    (hne : selFrom ≠ selTo) (hf : flankCond doc selFrom selTo m = false)
    (hw : wrapCond ((doc.take selTo).drop selFrom) m = false) :
    toggleMarkersAroundSelection doc selFrom selTo m
      = ⟨doc.take selFrom ++ m :: (((doc.take selTo).drop selFrom) ++ [m]) ++ doc.drop selTo,
          selFrom + 1, selFrom + 1 + ((doc.take selTo).drop selFrom).length⟩ := by
  simp [toggleMarkersAroundSelection, hne, hf, hw]

/-- C9 counterexample: the flanking condition (case 2) and the
wrapped-selection condition (case 3) are not mutually exclusive — for
the buffer `§§§§` with the non-empty selection `[1,3)` and glyph `§`,
both hold at once. -/
theorem toggle_cases_both_hold :
    flankCond "§§§§".data 1 3 '§' = true
    ∧ wrapCond (("§§§§".data.take 3).drop 1) '§' = true := by
  decide

/-- C9 (amended): the flanking condition and the wrapped-selection
condition can hold simultaneously (e.g. buffer `§§§§`, selection
`[1,3)`); however only one case applies per invocation because the
flanking case is checked first: whenever the flanking condition holds
on a non-empty selection, `toggleMarkersAroundSelection` performs the
flanked-removal transformation, even if the wrapped-selection
condition also holds. -/
theorem toggle_flank_priority (doc : List Char) (selFrom selTo : Nat) (m : Char)
    (hne : selFrom ≠ selTo) (hf : flankCond doc selFrom selTo m = true) :
    toggleMarkersAroundSelection doc selFrom selTo m
      = ⟨(doc.take selFrom).dropLast ++ ((doc.take selTo).drop selFrom)
            ++ (doc.drop selTo).drop 1,
          selFrom - 1, selFrom - 1 + ((doc.take selTo).drop selFrom).length⟩ :=
  toggle_flank_branch doc selFrom selTo m hne hf

theorem toggle_flank_priority_witness :
    (1 : Nat) ≠ 3 ∧ flankCond "§§§§".data 1 3 '§' = true
    ∧ toggleMarkersAroundSelection "§§§§".data 1 3 '§' = ⟨"§§".data, 0, 2⟩ := by
  refine ⟨by decide, by decide, ?_⟩
  rw [toggle_flank_priority "§§§§".data 1 3 '§' (by decide) (by decide)]
  decide

/-- C7: a run invoked with zero markers must not start: the
`handleRunFuzzer` guard returns synchronously (`none`), producing zero
results and zero dispatches, for every word list; it is not treated as
a per-word error. -/
theorem handleRunFuzzer_zero_markers (env : FuzzerEnv) (draftRequest : Option HttpRequest)
    (markers : List FuzzerMarker) (wordlist rawHeaders : List Char) (isRunning : Bool)
    (hm : markers = []) :
    handleRunFuzzer env draftRequest markers wordlist rawHeaders isRunning = none
    ∧ runResults (handleRunFuzzer env draftRequest markers wordlist rawHeaders isRunning) = []
    ∧ runDispatches (handleRunFuzzer env draftRequest markers wordlist rawHeaders isRunning)
        = [] := by
  subst hm
  cases draftRequest <;> simp [handleRunFuzzer, runResults, runDispatches]

theorem handleRunFuzzer_zero_markers_witness :
    ([] : List FuzzerMarker) = []
    ∧ handleRunFuzzer sampleEnv (some ⟨some "u".data, none, []⟩) [] "alpha".data [] true
        = none :=
  ⟨rfl, (handleRunFuzzer_zero_markers sampleEnv (some ⟨some "u".data, none, []⟩) []
    "alpha".data [] true rfl).1⟩

/-- C8: toggle round-trip — for a non-empty in-bounds selection on
which neither the flanking case nor the wrapped-selection case fires
(so the default wrap case applies), toggling and then toggling again
on the resulting buffer and selection restores the original buffer
text and the original selection bounds. -/
theorem toggle_wrap_roundtrip (doc : List Char) (selFrom selTo : Nat) (m : Char)
    (hlt : selFrom < selTo) (hto : selTo ≤ doc.length)
    (hf : flankCond doc selFrom selTo m = false)
    (hw : wrapCond ((doc.take selTo).drop selFrom) m = false) :
    toggleMarkersAroundSelection
        (toggleMarkersAroundSelection doc selFrom selTo m).text
        (toggleMarkersAroundSelection doc selFrom selTo m).anchor
        (toggleMarkersAroundSelection doc selFrom selTo m).head m
      = ⟨doc, selFrom, selTo⟩ := by
  have hne : selFrom ≠ selTo := Nat.ne_of_lt hlt
  have hbl : (doc.take selFrom).length = selFrom := by
    simp [List.length_take]
    omega
  have hsl : ((doc.take selTo).drop selFrom).length = selTo - selFrom := by
    simp [List.length_take]
    omega
  rw [toggle_default_branch doc selFrom selTo m hne hf hw]
  have hD1 : doc.take selFrom ++ m :: (((doc.take selTo).drop selFrom) ++ [m]) ++ doc.drop selTo
      = (doc.take selFrom ++ [m])
          ++ (((doc.take selTo).drop selFrom) ++ ([m] ++ doc.drop selTo)) := by
    simp [List.append_assoc]
  have hD2 : doc.take selFrom ++ m :: (((doc.take selTo).drop selFrom) ++ [m]) ++ doc.drop selTo
      = ((doc.take selFrom ++ [m]) ++ ((doc.take selTo).drop selFrom))
          ++ ([m] ++ doc.drop selTo) := by
    simp [List.append_assoc]
  have hlen1 : (doc.take selFrom ++ [m]).length = selFrom + 1 := by
    rw [List.length_append, hbl]
    simp
  have hlen2 : ((doc.take selFrom ++ [m]) ++ ((doc.take selTo).drop selFrom)).length
      = selFrom + 1 + ((doc.take selTo).drop selFrom).length := by
    rw [List.length_append, hlen1]
  have hne2 : selFrom + 1 ≠ selFrom + 1 + ((doc.take selTo).drop selFrom).length := by
    rw [hsl]; omega
  have hanchor0 : selFrom + 1 - 1 = selFrom := by omega
  have hgetFrom :
      (doc.take selFrom ++ m :: (((doc.take selTo).drop selFrom) ++ [m]) ++ doc.drop selTo)[
        selFrom + 1 - 1]? = some m := by
    rw [hanchor0, hD1]
    rw [List.getElem?_append_left (by rw [hlen1]; omega)]
    rw [List.getElem?_append_right (le_of_eq hbl)]
    simp [hbl]
  have hgetTo :
      (doc.take selFrom ++ m :: (((doc.take selTo).drop selFrom) ++ [m]) ++ doc.drop selTo)[
        selFrom + 1 + ((doc.take selTo).drop selFrom).length]? = some m := by
    rw [hD2, List.getElem?_append_right (le_of_eq hlen2)]
    have hidx : selFrom + 1 + ((doc.take selTo).drop selFrom).length
        - ((doc.take selFrom ++ [m]) ++ ((doc.take selTo).drop selFrom)).length = 0 := by
      rw [hlen2]
      omega
    rw [hidx]
    simp
  have hflank2 :
      flankCond
        (doc.take selFrom ++ m :: (((doc.take selTo).drop selFrom) ++ [m]) ++ doc.drop selTo)
        (selFrom + 1) (selFrom + 1 + ((doc.take selTo).drop selFrom).length) m = true := by
    rw [flankCond]
    have hdlen :
        (doc.take selFrom ++ m :: (((doc.take selTo).drop selFrom) ++ [m])
            ++ doc.drop selTo).length = doc.length + 2 := by
      simp [hbl, hsl]
      omega
    simp only [Bool.and_eq_true, beq_iff_eq, decide_eq_true_eq]
    refine ⟨⟨⟨by omega, ?_⟩, hgetFrom⟩, hgetTo⟩
    rw [hdlen, hsl]
    omega
  rw [toggle_flank_branch _ _ _ m hne2 hflank2]
  have htake1 :
      (doc.take selFrom ++ m :: (((doc.take selTo).drop selFrom) ++ [m])
          ++ doc.drop selTo).take (selFrom + 1) = doc.take selFrom ++ [m] := by
    rw [hD1, List.take_left' hlen1]
  have htake2 :
      (doc.take selFrom ++ m :: (((doc.take selTo).drop selFrom) ++ [m])
            ++ doc.drop selTo).take (selFrom + 1 + ((doc.take selTo).drop selFrom).length)
        = (doc.take selFrom ++ [m]) ++ ((doc.take selTo).drop selFrom) := by
    rw [hD2, List.take_left' hlen2]
  have hdrop2 :
      (doc.take selFrom ++ m :: (((doc.take selTo).drop selFrom) ++ [m])
            ++ doc.drop selTo).drop (selFrom + 1 + ((doc.take selTo).drop selFrom).length)
        = [m] ++ doc.drop selTo := by
    rw [hD2, List.drop_left' hlen2]
  rw [htake1, htake2, hdrop2]
  have hbs : doc.take selFrom ++ (doc.take selTo).drop selFrom = doc.take selTo := by
    have : doc.take selFrom = (doc.take selTo).take selFrom := by
      rw [List.take_take]
      congr 1
      omega
    rw [this, List.take_append_drop]
  have htext : (doc.take selFrom ++ [m]).dropLast
        ++ (((doc.take selFrom ++ [m]) ++ ((doc.take selTo).drop selFrom)).drop (selFrom + 1))
        ++ ([m] ++ doc.drop selTo).drop 1 = doc := by
    rw [List.dropLast_concat, List.drop_left' hlen1]
    simp only [List.singleton_append, List.drop_succ_cons, List.drop_zero]
    rw [hbs, List.take_append_drop]
  have hanchor : selFrom + 1 - 1 = selFrom := by omega
  have hhead : selFrom + 1 - 1
      + (((doc.take selFrom ++ [m]) ++ ((doc.take selTo).drop selFrom)).drop
          (selFrom + 1)).length = selTo := by
    rw [List.drop_left' hlen1, hanchor, hsl]
    omega
  rw [ToggleResult.mk.injEq]
  exact ⟨htext, hanchor, hhead⟩

theorem toggle_wrap_roundtrip_witness :
    (2 : Nat) < 4 ∧ (4 : Nat) ≤ "abcdef".data.length
    ∧ flankCond "abcdef".data 2 4 '+' = false
    ∧ wrapCond (("abcdef".data.take 4).drop 2) '+' = false
    ∧ toggleMarkersAroundSelection
        (toggleMarkersAroundSelection "abcdef".data 2 4 '+').text
        (toggleMarkersAroundSelection "abcdef".data 2 4 '+').anchor
        (toggleMarkersAroundSelection "abcdef".data 2 4 '+').head '+'
      = ⟨"abcdef".data, 2, 4⟩ := by
  refine ⟨by decide, by decide, by decide, by decide, ?_⟩
  exact toggle_wrap_roundtrip "abcdef".data 2 4 '+' (by decide) (by decide)
    (by decide) (by decide)

lemma runIter_word (env : FuzzerEnv) (draft : HttpRequest) (u hm b : List FuzzerMarker)
    (raw word : List Char) (st : Counters) :
    (runIter env draft u hm b raw word st).1.word = word := by
  simp only [runIter]
  split <;> rfl

lemma runIter_sendC (env : FuzzerEnv) (draft : HttpRequest) (u hm b : List FuzzerMarker)
    (raw word : List Char) (st : Counters) :
    (runIter env draft u hm b raw word st).2.2.sendC = st.sendC + 1 := by
  simp only [runIter]
  split <;> rfl

lemma runWords_map_word (env : FuzzerEnv) (draft : HttpRequest)
    (u hm b : List FuzzerMarker) (raw : List Char)
    (hc : ∀ n, env.shouldContinue n = true) :
    ∀ (ws : List (List Char)) (st : Counters),
      ((runWords env draft u hm b raw ws st).1).map FuzzerResult.word = ws := by
  intro ws
  induction ws with
  | nil => intro st; rfl
  | cons w rest ih =>
    intro st
    simp only [runWords, hc, if_true, List.map_cons]
    rw [runIter_word, ih]

/-- C1: with `shouldContinue` constantly true and a non-empty marker
list, `runFuzzerRequests` appends exactly one result per element of
`words`, in word-list order, and the result at index `i` has its
`word` field equal to `words[i]`; an empty word list yields zero
results. -/
theorem runFuzzerRequests_one_result_per_word (env : FuzzerEnv) (draft : HttpRequest)
    (markers : List FuzzerMarker) (rawHeaders : List Char) (words : List (List Char))
    (hm : markers ≠ []) (hc : ∀ n, env.shouldContinue n = true) :
    ((runFuzzerRequests env draft markers rawHeaders words).1).map FuzzerResult.word = words
    ∧ ((runFuzzerRequests env draft markers rawHeaders words).1).length = words.length
    ∧ (words = [] → (runFuzzerRequests env draft markers rawHeaders words).1 = []) := by
  have h : ((runFuzzerRequests env draft markers rawHeaders words).1).map
      FuzzerResult.word = words :=
    runWords_map_word env draft
      (markers.filter (fun m => m.field == MField.url))
      (markers.filter (fun m => m.field == MField.headers))
      (markers.filter (fun m => m.field == MField.body))
      rawHeaders hc words ⟨0, 0, 0, 0, 0⟩
  refine ⟨h, ?_, ?_⟩
  · have := congrArg List.length h
    simpa using this
  · intro hw
    subst hw
    exact List.map_eq_nil_iff.mp h

theorem runFuzzerRequests_one_result_per_word_witness :
    ((runFuzzerRequests sampleEnv ⟨some "uFUZZ".data, none, []⟩
        [⟨"m1".data, MField.url, 1, 5, "FUZZ".data⟩] []
        ["alpha".data, "beta".data]).1).map FuzzerResult.word
      = ["alpha".data, "beta".data] :=
  (runFuzzerRequests_one_result_per_word sampleEnv ⟨some "uFUZZ".data, none, []⟩
    [⟨"m1".data, MField.url, 1, 5, "FUZZ".data⟩] [] ["alpha".data, "beta".data]
    (by decide) (fun _ => rfl)).1

lemma runIter_draft_irrel (env : FuzzerEnv)
    (hsend : ∀ n r r', env.sendRequest n r = env.sendRequest n r')
    (d1 d2 : HttpRequest) (u hm b : List FuzzerMarker) (raw word : List Char)
    (st : Counters) :
    ((runIter env d1 u hm b raw word st).1, (runIter env d1 u hm b raw word st).2.2)
      = ((runIter env d2 u hm b raw word st).1, (runIter env d2 u hm b raw word st).2.2) := by
  simp only [runIter]
  rw [hsend st.sendC
    ⟨some (applyMarkers (d1.url.getD []) u word),
      some ⟨some (applyMarkers ((d1.body.bind HttpBody.text).getD []) b word)⟩,
      (parseHeaders (applyMarkers raw hm word) env.generateId st.idC).1⟩
    ⟨some (applyMarkers (d2.url.getD []) u word),
      some ⟨some (applyMarkers ((d2.body.bind HttpBody.text).getD []) b word)⟩,
      (parseHeaders (applyMarkers raw hm word) env.generateId st.idC).1⟩]
  split <;> rfl

lemma runWords_draft_irrel (env : FuzzerEnv)
    (hsend : ∀ n r r', env.sendRequest n r = env.sendRequest n r')
    (d1 d2 : HttpRequest) (u hm b : List FuzzerMarker) (raw : List Char) :
    ∀ (ws : List (List Char)) (st : Counters),
      ((runWords env d1 u hm b raw ws st).1, (runWords env d1 u hm b raw ws st).2.2)
        = ((runWords env d2 u hm b raw ws st).1, (runWords env d2 u hm b raw ws st).2.2) := by
  intro ws
  induction ws with
  | nil => intro st; rfl
  | cons w rest ih =>
    intro st
    simp only [runWords]
    cases hc : env.shouldContinue st.contC with
    | false => simp
    | true =>
      simp only [if_true]
      have hiter := runIter_draft_irrel env hsend d1 d2 u hm b raw w (bump st)
      rw [Prod.mk.injEq] at hiter
      rw [hiter.1, hiter.2]
      have hrest := ih (runIter env d2 u hm b raw w (bump st)).2.2
      rw [Prod.mk.injEq] at hrest ⊢
      exact ⟨by rw [hrest.1], hrest.2⟩

/-- C4 concerns the `request`/`response` snapshots of results.  The
source `FuzzerResult` carries no such fields, and this theorem shows
no record of the sent request survives into the result log: whenever
the transport's answer does not depend on the request it is handed,
the produced results are identical for any two draft templates —
nothing of the concrete request (URL, headers, body) is retained. -/
theorem results_carry_no_request_snapshot (env : FuzzerEnv)
    (hsend : ∀ n r r', env.sendRequest n r = env.sendRequest n r')
    (markers : List FuzzerMarker) (rawHeaders : List Char) (words : List (List Char))
    (d1 d2 : HttpRequest) :
    (runFuzzerRequests env d1 markers rawHeaders words).1
      = (runFuzzerRequests env d2 markers rawHeaders words).1 := by
  have h := runWords_draft_irrel env hsend d1 d2
    (markers.filter (fun m => m.field == MField.url))
    (markers.filter (fun m => m.field == MField.headers))
    (markers.filter (fun m => m.field == MField.body))
    rawHeaders words ⟨0, 0, 0, 0, 0⟩
  have h2 := congrArg Prod.fst h
  exact h2

/-- A transport that ignores its request entirely, for instantiating
the request-snapshot independence theorem. -/
def constEnv : FuzzerEnv :=
  ⟨fun _ _ => .ok ⟨200, some 3, none⟩, fun _ => ['i'], fun _ => 0, fun _ => 0,
    fun _ => true⟩

theorem results_carry_no_request_snapshot_witness :
    (runFuzzerRequests constEnv ⟨some "a".data, none, []⟩ [] [] ["w".data]).1
      = (runFuzzerRequests constEnv ⟨some "b".data, none, []⟩ [] [] ["w".data]).1 :=
  results_carry_no_request_snapshot constEnv (fun _ _ _ => rfl) [] [] ["w".data]
    ⟨some "a".data, none, []⟩ ⟨some "b".data, none, []⟩

/-- The call counters at the start of iteration `j` of the run loop
(just before that iteration's `shouldContinue` sample). -/
def stateAt (env : FuzzerEnv) (draft : HttpRequest) (u hm b : List FuzzerMarker)
    (raw : List Char) : List (List Char) → Counters → Nat → Counters
  | _, st, 0 => st
  | [], st, _ + 1 => st
  | w :: ws, st, j + 1 =>
    stateAt env draft u hm b raw ws (runIter env draft u hm b raw w (bump st)).2.2 j

lemma runIter_of_error (env : FuzzerEnv) (draft : HttpRequest)
    (u hm b : List FuzzerMarker) (raw word : List Char) (st : Counters) (e : List Char)
    (h : ∀ r, env.sendRequest st.sendC r = .error e) :
    (runIter env draft u hm b raw word st).1
      = ⟨env.generateId (parseHeaders (applyMarkers raw hm word) env.generateId st.idC).2,
          word, 0, 0, 0, some e, env.now st.nowC⟩
    ∧ (runIter env draft u hm b raw word st).2.2
      = ⟨(parseHeaders (applyMarkers raw hm word) env.generateId st.idC).2 + 1,
          st.nowC + 1, st.perfC + 1, st.contC, st.sendC + 1⟩ := by
  simp only [runIter]
  rw [h]
  exact ⟨rfl, rfl⟩

lemma runIter_of_ok (env : FuzzerEnv) (draft : HttpRequest)
    (u hm b : List FuzzerMarker) (raw word : List Char) (st : Counters) (v : SendResult)
    (h : ∀ r, env.sendRequest st.sendC r = .ok v) :
    (runIter env draft u hm b raw word st).1
      = ⟨env.generateId (parseHeaders (applyMarkers raw hm word) env.generateId st.idC).2,
          word, v.status, env.nowPerf (st.perfC + 1) - env.nowPerf st.perfC,
          v.contentLength.getD 0, v.error, env.now st.nowC⟩
    ∧ (runIter env draft u hm b raw word st).2.2
      = ⟨(parseHeaders (applyMarkers raw hm word) env.generateId st.idC).2 + 1,
          st.nowC + 1, st.perfC + 2, st.contC, st.sendC + 1⟩ := by
  simp only [runIter]
  rw [h]
  exact ⟨rfl, rfl⟩

lemma runWords_getElem (env : FuzzerEnv) (draft : HttpRequest)
    (u hm b : List FuzzerMarker) (raw : List Char)
    (hc : ∀ n, env.shouldContinue n = true) :
    ∀ (ws : List (List Char)) (st : Counters) (j : Nat), j < ws.length →
      ((runWords env draft u hm b raw ws st).1)[j]?
        = some (runIter env draft u hm b raw (ws.getD j [])
            (bump (stateAt env draft u hm b raw ws st j))).1 := by
  intro ws
  induction ws with
  | nil => intro st j hj; simp at hj
  | cons w rest ih =>
    intro st j hj
    simp only [runWords, hc, if_true]
    cases j with
    | zero => simp [stateAt]
    | succ j' =>
      simp only [List.getElem?_cons_succ]
      rw [ih _ j' (by simp only [List.length_cons] at hj; omega)]
      rfl

lemma stateAt_sendC (env : FuzzerEnv) (draft : HttpRequest)
    (u hm b : List FuzzerMarker) (raw : List Char) :
    ∀ (ws : List (List Char)) (st : Counters) (j : Nat), j ≤ ws.length →
      (stateAt env draft u hm b raw ws st j).sendC = st.sendC + j := by
  intro ws
  induction ws with
  | nil =>
    intro st j hj
    have : j = 0 := by simpa using hj
    subst this
    simp [stateAt]
  | cons w rest ih =>
    intro st j hj
    cases j with
    | zero => simp [stateAt]
    | succ j' =>
      simp only [stateAt]
      rw [ih _ j' (by simp only [List.length_cons] at hj; omega), runIter_sendC]
      simp only [bump]
      omega

lemma stateAt_perfC (env : FuzzerEnv) (draft : HttpRequest)
    (u hm b : List FuzzerMarker) (raw : List Char) (k : Nat) (e : List Char)
    (resp : Nat → SendResult)
    (hsendk : ∀ r, env.sendRequest k r = .error e)
    (hsendj : ∀ j r, j ≠ k → env.sendRequest j r = .ok (resp j)) :
    ∀ (ws : List (List Char)) (st : Counters) (j : Nat), j ≤ ws.length →
      (stateAt env draft u hm b raw ws st j).perfC
        = st.perfC + 2 * j - (if st.sendC ≤ k ∧ k < st.sendC + j then 1 else 0) := by
  intro ws
  induction ws with
  | nil =>
    intro st j hj
    have : j = 0 := by simpa using hj
    subst this
    simp only [stateAt]
    split_ifs <;> omega
  | cons w rest ih =>
    intro st j hj
    cases j with
    | zero =>
      simp only [stateAt]
      split_ifs <;> omega
    | succ j' =>
      simp only [stateAt]
      have hj' : j' ≤ rest.length := by simp only [List.length_cons] at hj; omega
      by_cases hk : st.sendC = k
      · have herr := (runIter_of_error env draft u hm b raw w (bump st) e
          (fun r => by rw [show (bump st).sendC = st.sendC from rfl, hk]; exact hsendk r)).2
        rw [herr] at *
        rw [ih _ j' hj']
        simp only [bump]
        split_ifs <;> omega
      · have hok := (runIter_of_ok env draft u hm b raw w (bump st) (resp st.sendC)
          (fun r => hsendj st.sendC r hk)).2
        rw [hok]
        rw [ih _ j' hj']
        simp only [bump]
        split_ifs <;> omega

/-- C3: if dispatch throws (send call `k` rejects, with textual
description `e`, here non-empty) while every other call succeeds, the
run still appends one result per word: the result at index `k` has
status 0, elapsed 0, contentLength 0 and its error equal to the
failure's description, while every other index gets its own
independent status, content length, error and elapsed value (the
difference of the two monotonic-clock samples around its own
dispatch).  The model function is total: the exception never
propagates out of the run loop. -/
theorem runFuzzer_failure_isolation (env : FuzzerEnv) (draft : HttpRequest)
    (markers : List FuzzerMarker) (rawHeaders : List Char) (words : List (List Char))
    (k : Nat) (e : List Char) (resp : Nat → SendResult)
    (hc : ∀ n, env.shouldContinue n = true)
    (hk : k < words.length)
    (he : e ≠ [])
    (hsendk : ∀ r, env.sendRequest k r = .error e)
    (hsendj : ∀ j r, j ≠ k → env.sendRequest j r = .ok (resp j)) :
    ((runFuzzerRequests env draft markers rawHeaders words).1).length = words.length
    ∧ ∀ j, j < words.length → ∀ res,
        ((runFuzzerRequests env draft markers rawHeaders words).1)[j]? = some res →
          res.word = words.getD j []
          ∧ (j = k → res.status = 0 ∧ res.elapsed = 0 ∧ res.contentLength = 0
              ∧ res.error = some e ∧ e ≠ [])
          ∧ (j ≠ k → res.status = (resp j).status
              ∧ res.contentLength = (resp j).contentLength.getD 0
              ∧ res.error = (resp j).error
              ∧ res.elapsed = env.nowPerf ((if j < k then 2 * j else 2 * j - 1) + 1)
                  - env.nowPerf (if j < k then 2 * j else 2 * j - 1)) := by
  constructor
  · have h : ((runFuzzerRequests env draft markers rawHeaders words).1).map
        FuzzerResult.word = words :=
      runWords_map_word env draft
        (markers.filter (fun m => m.field == MField.url))
        (markers.filter (fun m => m.field == MField.headers))
        (markers.filter (fun m => m.field == MField.body))
        rawHeaders hc words ⟨0, 0, 0, 0, 0⟩
    have := congrArg List.length h
    simpa using this
  · intro j hj res hres
    have hg : ((runFuzzerRequests env draft markers rawHeaders words).1)[j]?
        = some (runIter env draft
            (markers.filter (fun m => m.field == MField.url))
            (markers.filter (fun m => m.field == MField.headers))
            (markers.filter (fun m => m.field == MField.body)) rawHeaders
            (words.getD j [])
            (bump (stateAt env draft
              (markers.filter (fun m => m.field == MField.url))
              (markers.filter (fun m => m.field == MField.headers))
              (markers.filter (fun m => m.field == MField.body)) rawHeaders
              words ⟨0, 0, 0, 0, 0⟩ j))).1 :=
      runWords_getElem env draft
        (markers.filter (fun m => m.field == MField.url))
        (markers.filter (fun m => m.field == MField.headers))
        (markers.filter (fun m => m.field == MField.body)) rawHeaders hc
        words ⟨0, 0, 0, 0, 0⟩ j hj
    rw [hg] at hres
    have hres' := (Option.some.inj hres).symm
    have hsend : (bump (stateAt env draft
        (markers.filter (fun m => m.field == MField.url))
        (markers.filter (fun m => m.field == MField.headers))
        (markers.filter (fun m => m.field == MField.body)) rawHeaders
        words ⟨0, 0, 0, 0, 0⟩ j)).sendC = j := by
      have := stateAt_sendC env draft
        (markers.filter (fun m => m.field == MField.url))
        (markers.filter (fun m => m.field == MField.headers))
        (markers.filter (fun m => m.field == MField.body)) rawHeaders
        words ⟨0, 0, 0, 0, 0⟩ j (le_of_lt hj)
      simpa [bump] using this
    have hperf : (bump (stateAt env draft
        (markers.filter (fun m => m.field == MField.url))
        (markers.filter (fun m => m.field == MField.headers))
        (markers.filter (fun m => m.field == MField.body)) rawHeaders
        words ⟨0, 0, 0, 0, 0⟩ j)).perfC = 2 * j - (if k < j then 1 else 0) := by
      have := stateAt_perfC env draft
        (markers.filter (fun m => m.field == MField.url))
        (markers.filter (fun m => m.field == MField.headers))
        (markers.filter (fun m => m.field == MField.body)) rawHeaders
        k e resp hsendk hsendj words ⟨0, 0, 0, 0, 0⟩ j (le_of_lt hj)
      simp only [bump]
      rw [this]
      simp only [show ({ idC := 0, nowC := 0, perfC := 0, contC := 0, sendC := 0 } :
          Counters).perfC = 0 from rfl,
        show ({ idC := 0, nowC := 0, perfC := 0, contC := 0, sendC := 0 } :
          Counters).sendC = 0 from rfl]
      split_ifs <;> omega
    refine ⟨?_, ?_, ?_⟩
    · rw [hres', runIter_word]
    · intro hjk
      subst hjk
      have herr := (runIter_of_error env draft
        (markers.filter (fun m => m.field == MField.url))
        (markers.filter (fun m => m.field == MField.headers))
        (markers.filter (fun m => m.field == MField.body)) rawHeaders
        (words.getD j []) _ e (fun r => by rw [hsend]; exact hsendk r)).1
      rw [hres', herr]
      exact ⟨rfl, rfl, rfl, rfl, he⟩
    · intro hjk
      have hok := (runIter_of_ok env draft
        (markers.filter (fun m => m.field == MField.url))
        (markers.filter (fun m => m.field == MField.headers))
        (markers.filter (fun m => m.field == MField.body)) rawHeaders
        (words.getD j []) _ (resp j) (fun r => by rw [hsend]; exact hsendj j r hjk)).1
      rw [hres', hok]
      refine ⟨rfl, rfl, rfl, ?_⟩
      have hpc : 2 * j - (if k < j then 1 else 0)
          = (if j < k then 2 * j else 2 * j - 1) := by
        split_ifs <;> omega
      rw [hperf, hpc]

/-- A transport mock that rejects call 1 with description `boom` and
answers every other call with a distinct status. -/
def failEnv : FuzzerEnv :=
  ⟨fun n _ => if n = 1 then .error "boom".data
    else .ok ⟨200 + Int.ofNat n, some 5, none⟩,
    fun n => [Char.ofNat (48 + n % 10)], fun _ => 7, fun n => Int.ofNat (3 * n),
    fun _ => true⟩

theorem runFuzzer_failure_isolation_witness :
    ((runFuzzerRequests failEnv ⟨some "u".data, none, []⟩ [] []
        ["a".data, "b".data, "c".data]).1).length = 3
    ∧ ((runFuzzerRequests failEnv ⟨some "u".data, none, []⟩ [] []
        ["a".data, "b".data, "c".data]).1).map FuzzerResult.status = [200, 0, 202] := by
  have h := runFuzzer_failure_isolation failEnv ⟨some "u".data, none, []⟩ [] []
    ["a".data, "b".data, "c".data] 1 "boom".data
    (fun n => ⟨200 + Int.ofNat n, some 5, none⟩) (fun _ => rfl) (by decide) (by decide)
    (fun r => rfl) (fun j r hj => by simp [failEnv, hj])
  exact ⟨h.1, by decide⟩

end FuzzyYaak
